import Mathlib

/-!
Verification of the signalx bot core (`src/bot.py`): the payload
normalizer `parse_number_from_payload`, the classifier `make_signal`,
and the dedup logic inlined in `handle_result`.

Python values flowing through the normalizer are modelled by the
inductive type `PyVal` (nested mappings, lists, strings, integers and
`None`); dicts are association lists with unique-key lookup being the
first match.  Python booleans are not modelled (no code path under
scrutiny receives one).
-/

set_option autoImplicit false

namespace SignalX

/-- Model of a Python value as received from the feed: `dict` (as an
ordered association list), `list`, `str`, `int`, or `None`. -/
inductive PyVal where
  | vInt : Int → PyVal
  | vStr : String → PyVal
  | vList : List PyVal → PyVal
  | vDict : List (String × PyVal) → PyVal
  | vNone : PyVal

/-- Python truthiness for the modelled values: `None`, `0`, `""`, `[]`
and the empty dict are falsy, everything else truthy. -/
def pyTruthy : PyVal → Bool
  | .vInt n => n ≠ 0
  | .vStr s => s ≠ ""
  | .vList l => !l.isEmpty
  | .vDict f => !f.isEmpty
  | .vNone => false

/-- Decimal digits of `n`, most significant first; the first argument is
fuel (`n + 1` is always enough). Structural in the fuel so the kernel
can evaluate it. -/
def natReprAux : Nat → Nat → List Char
  | 0, _ => []
  | fuel + 1, n =>
    if n = 0 then [] else natReprAux fuel (n / 10) ++ [Char.ofNat (48 + n % 10)]

/-- Python `str` of a non-negative integer. -/
def natRepr (n : Nat) : String :=
  if n = 0 then "0" else ⟨natReprAux (n + 1) n⟩

/-- Python `str` of an `int` (decimal, `-` sign for negatives). -/
def intRepr : Int → String
  | .ofNat m => natRepr m
  | .negSucc m => "-" ++ natRepr (m + 1)

/-- Python `repr` of a modelled value, used by `str` on containers.
String quoting is simplified (always single quotes, no escaping); no
claim depends on the exact characters, only on the general shape. -/
def pyRepr : PyVal → String
  | .vInt n => intRepr n
  | .vStr s => "\x27" ++ s ++ "\x27"
  | .vNone => "None"
  | .vList l =>
      "[" ++ String.intercalate ", " (l.attach.map (fun x => pyRepr x.1)) ++ "]"
  | .vDict f =>
      "\x7b" ++
        String.intercalate ", "
          (f.attach.map (fun kv => "\x27" ++ kv.1.1 ++ "\x27: " ++ pyRepr kv.1.2)) ++
        "\x7d"
decreasing_by
  · have := List.sizeOf_lt_of_mem x.2
    simp only [PyVal.vList.sizeOf_spec]
    omega
  · have h1 := List.sizeOf_lt_of_mem kv.2
    have h2 : sizeOf kv.1.2 < sizeOf kv.1 := by
      obtain ⟨k, v⟩ := kv.1
      simp only [Prod.mk.sizeOf_spec]
      omega
    simp only [PyVal.vDict.sizeOf_spec]
    omega

/-- Python `str` of a modelled value: a string is returned unchanged,
everything else goes through `repr`. -/
def pyStr (v : PyVal) : String :=
  match v with
  | .vStr s => s
  | _ => pyRepr v

/-- Model of `safe_get(d, k)` from bot.py: dict lookup returning the default
`None` (here `none`) when `d` is not a dict or lacks the key. -/
def safeGet1 (d : PyVal) (k : String) : Option PyVal :=
  match d with
  | .vDict fields => fields.lookup k
  | _ => none

/-- Model of `safe_get(d, k1, k2)`: two-step nested lookup. -/
def safeGet2 (d : PyVal) (k1 k2 : String) : Option PyVal :=
  match safeGet1 d k1 with
  | some v => safeGet1 v k2
  | none => none

/-- Python `str.strip()`: leading and trailing whitespace removed
(only the common ASCII whitespace characters are modelled). -/
def pyStrip (s : String) : String :=
  ⟨((s.data.dropWhile Char.isWhitespace).reverse.dropWhile Char.isWhitespace).reverse⟩

/-- The effect of `re.search(r"\d{1,2}$", s)` followed by `int(...)`:
the last run of at most two trailing digits of `s`, as a number, or
`none` when `s` does not end in a digit.  (`re.search` returns the
leftmost position at which the end-anchored pattern matches, i.e. the
last two trailing digits when there are at least two.)  Only ASCII
digits are modelled; `isAsciiDigit` is the `\d` test. -/
def isAsciiDigit (c : Char) : Bool :=
  48 ≤ c.toNat && c.toNat ≤ 57

/-- See the comment above: the digit run at the very end of `s`, capped
at the last two digits, read as a number. -/
def trailingNum (s : String) : Option Nat :=
  if (s.data.reverse.takeWhile isAsciiDigit).isEmpty then none
  else some (((s.data.reverse.takeWhile isAsciiDigit).take 2).reverse.foldl
    (fun a c => 10 * a + (c.toNat - 48)) 0)

/-- The `candidates` list built in `parse_number_from_payload` for a
dict payload: six probes in the source's fixed order. -/
def candidates (d : PyVal) : List (Option PyVal) :=
  [ safeGet1 d "number", safeGet1 d "result", safeGet1 d "openCode",
    safeGet1 d "lucky", safeGet2 d "lottery" "number", safeGet2 d "data" "number" ]

/-- One iteration of the candidate loop: an `int` candidate is taken
when it lies in `[0,99]`; a `str` candidate is stripped and its
trailing one-or-two-digit suffix taken when that lies in `[0,99]`;
anything else (including a missing candidate) is skipped. -/
def tryCandidate : Option PyVal → Option Int
  | some (.vInt n) => if 0 ≤ n ∧ n ≤ 99 then some n else none
  | some (.vStr s) =>
      match trailingNum (pyStrip s) with
      | some n => if 0 ≤ (n : Int) ∧ (n : Int) ≤ 99 then some (n : Int) else none
      | none => none
  | _ => none

/-- Python `a or b or c`: the first truthy value of the chain, `none`
when every link is `None` or falsy. -/
def orChain : List (Option PyVal) → Option PyVal
  | [] => none
  | x :: rest =>
    match x with
    | some v => if pyTruthy v then some v else orChain rest
    | none => orChain rest

/-- Model of `str(safe_get(data,"issue") or safe_get(data,"expect") or
safe_get(data,"period") or "")` followed by `issue or None`: the issue
identifier resolved from the three fields in priority order, with a
falsy chain collapsing to absent rather than the empty string. -/
def resolveIssue (d : PyVal) : Option String :=
  let s :=
    match orChain [safeGet1 d "issue", safeGet1 d "expect", safeGet1 d "period"] with
    | some v => pyStr v
    | none => ""
  if s = "" then none else some s

/-- One probe of the collection-key loop: keep the last element when
the value is a non-empty list (`isinstance(arr, list) and arr`),
otherwise skip (a key bound to an empty list or a non-list is skipped
exactly when there is no last element). -/
def asLastOfArray : Option PyVal → Option PyVal
  | some (.vList l) => l.getLast?
  | _ => none

/-- The collection-key loop of `parse_number_from_payload`: the keys
`list`, `rows`, `data`, `resultList` probed in the source's order; the
first one bound to a non-empty array yields that array's last
element. -/
def firstArrayLast (d : PyVal) : Option PyVal :=
  ["list", "rows", "data", "resultList"].findSome? (fun k => asLastOfArray (safeGet1 d k))

/-- The bracket test of the string branch: `(s.startswith("{") and
s.endswith("}")) or (s.startswith("[") and s.endswith("]"))`. -/
def looksJson (s : String) : Bool :=
  (s.data.head? == some '\x7b' && s.data.getLast? == some '\x7d') ||
    (s.data.head? == some '[' && s.data.getLast? == some ']')

/-- The dict returned by `parse_number_from_payload`:
`{"issue": str|None, "number": int, "raw": data}`. -/
structure Event where
  issue : Option String
  number : Int
  raw : PyVal

/-- Model of `parse_number_from_payload` from bot.py, fuel-indexed (the fuel
models the Python call stack; every recursive call consumes one unit).
`jsonLoads` is an uninterpreted stand-in for `json.loads` on a
bracketed string: `some v` models a successful parse producing `v`,
`none` models the exception swallowed by `except: pass`, after which
control falls through to the trailing-digit extraction. -/
def parseNum (jsonLoads : String → Option PyVal) : Nat → PyVal → Option Event
  | 0, _ => none
  | fuel + 1, data =>
    match data with
    | .vDict _ =>
      match (candidates data).findSome? tryCandidate with
      | some n => some ⟨resolveIssue data, n, data⟩
      | none =>
        match firstArrayLast data with
        | some lastv => parseNum jsonLoads fuel lastv
        | none => none
    | .vStr s0 =>
      let s := pyStrip s0
      match (if looksJson s then (jsonLoads s).map (parseNum jsonLoads fuel) else none) with
      | some r => r
      | none =>
        match trailingNum s with
        | some n =>
            if 0 ≤ (n : Int) ∧ (n : Int) ≤ 99 then some ⟨none, (n : Int), data⟩ else none
        | none => none
    | .vList l =>
      match l.getLast? with
      | some x => parseNum jsonLoads fuel x
      | none => none
    | _ => none

/-- The dict returned by `make_signal`: decision string, confidence,
and the `meta` fields `num` and `notes`. -/
structure Signal where
  decision : String
  confidence : Int
  num : Int
  notes : String

/-- The local `big_small` of `make_signal`:
`"BIG" if n >= big_threshold else "SMALL"`. -/
def big_small (bigThreshold : Int) (n : Int) : String :=
  if n ≥ bigThreshold then "BIG" else "SMALL"

/-- The local `even_odd` of `make_signal`:
`"EVEN" if (n % 2 == 0) else "ODD"`. -/
def even_odd (n : Int) : String :=
  if n % 2 = 0 then "EVEN" else "ODD"

/-- Model of `make_signal` from bot.py, with the configured `BIG_THRESHOLD`
made an explicit argument.  The confidence starts at 60, drops to 55 on
the two boundary values, and the later extremal check unconditionally
overwrites with 65 on 0 and 9. -/
def make_signal (bigThreshold : Int) (n : Int) : Signal :=
  let conf0 : Int := 60
  let conf1 : Int := if n = bigThreshold ∨ n = bigThreshold - 1 then 55 else conf0
  let conf2 : Int := if n = 0 ∨ n = 9 then 65 else conf1
  { decision := big_small bigThreshold n ++ " / " ++ even_odd n
    confidence := conf2
    num := n
    notes := "Num=" ++ intRepr n ++ " → " ++ big_small bigThreshold n ++ " & " ++ even_odd n }

/-- The dedup step inlined in `handle_result`: membership test against
`SEEN_KEYS`, append on novelty, then `del SEEN_KEYS[:-max_keep]` when
the length exceeds `max_keep`.  Returns the accept verdict and the new
window.  For `max_keep = 0` the Python slice `[:-0]` is `[:0]` and
deletes nothing; that quirk is reproduced. -/
def acceptKey (maxKeep : Nat) (k : String) (seen : List String) : Bool × List String :=
  if k ∈ seen then (false, seen)
  else if (seen ++ [k]).length > maxKeep then
    (true, if maxKeep = 0 then seen ++ [k]
           else (seen ++ [k]).drop ((seen ++ [k]).length - maxKeep))
  else (true, seen ++ [k])

/-- The dedup window after a sequence of keys has been handled,
starting from the empty `SEEN_KEYS`. -/
def runDedup (maxKeep : Nat) (ks : List String) : List String :=
  ks.foldl (fun w k => (acceptKey maxKeep k w).2) []

/-- Predicate for "missing or falsy": the test a link of the issue `or`-chain fails,
letting resolution move on to the next field. -/
def isFalsy (o : Option PyVal) : Bool :=
  match o with
  | some v => !pyTruthy v
  | none => true

/-! ## Classifier theorems -/

/-- C1: for every integer `n` in `[0,99]` and every integer threshold,
the Signal produced by `make_signal` has size decision `BIG` if and
only if `n ≥ threshold` (`SMALL` otherwise), and parity decision
`EVEN` if and only if `n % 2 = 0` (`ODD` otherwise). -/
theorem make_signal_size_parity (t n : Int) (_h0 : 0 ≤ n) (_h99 : n ≤ 99) :
    (make_signal t n).decision = big_small t n ++ " / " ++ even_odd n ∧
    (big_small t n = "BIG" ↔ t ≤ n) ∧
    (big_small t n = "SMALL" ↔ n < t) ∧
    (even_odd n = "EVEN" ↔ n % 2 = 0) ∧
    (even_odd n = "ODD" ↔ n % 2 ≠ 0) := by
  refine ⟨rfl, ?_, ?_, ?_, ?_⟩
  · by_cases hbig : t ≤ n
    · simp only [big_small]
      rw [if_pos (by omega : n ≥ t)]
      exact iff_of_true rfl hbig
    · simp only [big_small]
      rw [if_neg (by omega : ¬ n ≥ t)]
      exact iff_of_false (by decide) hbig
  · by_cases hbig : t ≤ n
    · simp only [big_small]
      rw [if_pos (by omega : n ≥ t)]
      exact iff_of_false (by decide) (by omega)
    · simp only [big_small]
      rw [if_neg (by omega : ¬ n ≥ t)]
      exact iff_of_true rfl (by omega)
  · by_cases heven : n % 2 = 0
    · simp only [even_odd]
      rw [if_pos heven]
      exact iff_of_true rfl heven
    · simp only [even_odd]
      rw [if_neg heven]
      exact iff_of_false (by decide) heven
  · by_cases heven : n % 2 = 0
    · simp only [even_odd]
      rw [if_pos heven]
      exact iff_of_false (by decide) (fun hh => hh heven)
    · simp only [even_odd]
      rw [if_neg heven]
      exact iff_of_true rfl heven

/-- Witness for C1 at `t = 5`, `n = 3`. -/
theorem make_signal_size_parity_witness :
    (make_signal 5 3).decision = big_small 5 3 ++ " / " ++ even_odd 3 ∧
    (big_small 5 3 = "BIG" ↔ (5 : Int) ≤ 3) ∧
    (big_small 5 3 = "SMALL" ↔ (3 : Int) < 5) ∧
    (even_odd 3 = "EVEN" ↔ (3 : Int) % 2 = 0) ∧
    (even_odd 3 = "ODD" ↔ (3 : Int) % 2 ≠ 0) :=
  make_signal_size_parity 5 3 (by decide) (by decide)

/-- C2: for every integer `n` in `[0,99]` and threshold `t`, the
confidence is 65 if `n` is 0 or 9; otherwise 55 if `n` equals `t` or
`t - 1`; otherwise 60 — the extremal check runs after the boundary
check and unconditionally overwrites it when both apply. -/
theorem make_signal_confidence (t n : Int) (_h0 : 0 ≤ n) (_h99 : n ≤ 99) :
    (make_signal t n).confidence =
      if n = 0 ∨ n = 9 then 65 else if n = t ∨ n = t - 1 then 55 else 60 := by
  rfl

/-- Witness for C2 at `t = 5`, `n = 9` (both rules apply; extremal wins). -/
theorem make_signal_confidence_witness :
    (make_signal 5 9).confidence =
      if (9 : Int) = 0 ∨ (9 : Int) = 9 then 65
      else if (9 : Int) = 5 ∨ (9 : Int) = 5 - 1 then 55 else 60 :=
  make_signal_confidence 5 9 (by decide) (by decide)

/-- Counterexample to C3: at threshold 9 the boundary value `n = 9` is
also extremal, so `classify(9, 9).confidence` is 65, not 55 as the
unrestricted boundary property asserts. -/
theorem make_signal_boundary_cex :
    (make_signal 9 9).confidence = 65 ∧ (make_signal 9 9).confidence ≠ 55 := by
  decide

/-- C3 amended: `classify(t, t).confidence = 55` and
`classify(t-1, t).confidence = 55` (when `t - 1 ≥ 0`) hold provided
the number in question is neither 0 nor 9; on 0 and 9 the
later extremal check overrides the boundary confidence. -/
theorem make_signal_boundary_conf (t : Int) :
    (t ≠ 0 → t ≠ 9 → (make_signal t t).confidence = 55) ∧
    (0 ≤ t - 1 → t - 1 ≠ 0 → t - 1 ≠ 9 → (make_signal t (t - 1)).confidence = 55) := by
  constructor
  · intro h0 h9
    simp [make_signal, h0, h9]
  · intro _ h0 h9
    simp [make_signal, h0, h9]

/-- Witness for the amended C3 at `t = 5`. -/
theorem make_signal_boundary_conf_witness :
    (make_signal 5 5).confidence = 55 ∧ (make_signal 5 (5 - 1)).confidence = 55 :=
  ⟨(make_signal_boundary_conf 5).1 (by decide) (by decide),
   (make_signal_boundary_conf 5).2 (by decide) (by decide) (by decide)⟩

/-! ## Dedup theorems -/

/-- C4: `accept` returns `true` exactly when the key is not in the
window (so the first presentation of a key is accepted and every
re-presentation while it remains in the window is rejected), and the
capacity-2 trace accepts `a`, `b`, rejects the duplicate `a`, accepts
`c` evicting `a`, then re-accepts `a`. -/
theorem acceptKey_contract :
    (∀ cap k w, (acceptKey cap k w).1 = true ↔ k ∉ w) ∧
    acceptKey 2 "a" [] = (true, ["a"]) ∧
    acceptKey 2 "b" ["a"] = (true, ["a", "b"]) ∧
    acceptKey 2 "a" ["a", "b"] = (false, ["a", "b"]) ∧
    acceptKey 2 "c" ["a", "b"] = (true, ["b", "c"]) ∧
    acceptKey 2 "a" ["b", "c"] = (true, ["c", "a"]) := by
  refine ⟨fun cap k w => ?_, by decide, by decide, by decide, by decide, by decide⟩
  by_cases h : k ∈ w <;>
    by_cases hlen : cap < w.length + 1 <;>
    simp [acceptKey, h, hlen]

/-- Length bound: one `accept` step preserves `length ≤ cap` for any
capacity `cap ≥ 1`, and on a new key the resulting window is the last
`cap` entries of the appended window. -/
theorem acceptKey_step_bound (cap : Nat) (hcap : 1 ≤ cap) (k : String)
    (w : List String) (hw : w.length ≤ cap) :
    (acceptKey cap k w).2.length ≤ cap ∧
    (k ∉ w → (acceptKey cap k w).2 = (w ++ [k]).drop (w.length + 1 - cap)) := by
  by_cases h : k ∈ w
  · refine ⟨by simpa [acceptKey, h] using hw, fun hk => absurd h hk⟩
  · have hcap0 : cap ≠ 0 := by omega
    have hlen2 : (w ++ [k]).length = w.length + 1 := by simp
    by_cases hlen : (w ++ [k]).length > cap
    · constructor
      · unfold acceptKey
        rw [if_neg h, if_pos hlen, if_neg hcap0]
        show ((w ++ [k]).drop ((w ++ [k]).length - cap)).length ≤ cap
        rw [List.length_drop, hlen2]
        omega
      · intro _
        unfold acceptKey
        rw [if_neg h, if_pos hlen, if_neg hcap0]
        show (w ++ [k]).drop ((w ++ [k]).length - cap) = _
        rw [hlen2]
    · constructor
      · unfold acceptKey
        rw [if_neg h, if_neg hlen]
        show (w ++ [k]).length ≤ cap
        omega
      · intro _
        unfold acceptKey
        rw [if_neg h, if_neg hlen]
        show w ++ [k] = (w ++ [k]).drop (w.length + 1 - cap)
        have hz : w.length + 1 - cap = 0 := by omega
        rw [hz, List.drop_zero]

/-- C5: for any capacity `cap ≥ 1` the dedup window holds at most
`cap` keys after every operation — each step preserves the bound and
keeps exactly the most recent keys (oldest-first eviction), and any
run from the empty window stays within the bound. -/
theorem acceptKey_capacity (cap : Nat) (hcap : 1 ≤ cap) :
    (∀ k w, w.length ≤ cap →
      (acceptKey cap k w).2.length ≤ cap ∧
      (k ∉ w → (acceptKey cap k w).2 = (w ++ [k]).drop (w.length + 1 - cap))) ∧
    (∀ ks, (runDedup cap ks).length ≤ cap) := by
  refine ⟨fun k w hw => acceptKey_step_bound cap hcap k w hw, fun ks => ?_⟩
  suffices h : ∀ (l : List String) (w : List String), w.length ≤ cap →
      (l.foldl (fun w k => (acceptKey cap k w).2) w).length ≤ cap by
    exact h ks [] (by simp)
  intro l
  induction l with
  | nil => intro w hw; simpa using hw
  | cons x xs ih =>
    intro w hw
    exact ih _ (acceptKey_step_bound cap hcap x w hw).1

/-- Witness for C5 at capacity 2. -/
theorem acceptKey_capacity_witness :
    ((acceptKey 2 "x" ["a"]).2.length ≤ 2 ∧
      ("x" ∉ ["a"] → (acceptKey 2 "x" ["a"]).2 = (["a"] ++ ["x"]).drop (["a"].length + 1 - 2))) ∧
    (runDedup 2 ["a", "b", "a", "c"]).length ≤ 2 :=
  ⟨(acceptKey_capacity 2 (by decide)).1 "x" ["a"] (by decide),
   (acceptKey_capacity 2 (by decide)).2 ["a", "b", "a", "c"]⟩

/-- C6: presenting a key already in the window leaves the verdict
`false` and the window entirely unchanged — the duplicate is rejected
before any insertion, so re-seeing a key does not refresh its
position. -/
theorem acceptKey_duplicate_frame (cap : Nat) (k : String) (w : List String)
    (h : k ∈ w) : acceptKey cap k w = (false, w) := by
  simp [acceptKey, h]

/-- Witness for C6. -/
theorem acceptKey_duplicate_frame_witness :
    acceptKey 3 "x" ["x", "y"] = (false, ["x", "y"]) :=
  acceptKey_duplicate_frame 3 "x" ["x", "y"] (by decide)

/-! ## Normalizer helper lemmas -/

/-- Unfolding `parseNum` on a dict with one unit of fuel available. -/
theorem parseNum_succ_dict (jl : String → Option PyVal) (fuel : Nat)
    (fs : List (String × PyVal)) :
    parseNum jl (fuel + 1) (.vDict fs) =
      match (candidates (.vDict fs)).findSome? tryCandidate with
      | some n => some ⟨resolveIssue (.vDict fs), n, .vDict fs⟩
      | none =>
        match firstArrayLast (.vDict fs) with
        | some lastv => parseNum jl fuel lastv
        | none => none := rfl

/-- Unfolding `parseNum` on a string with one unit of fuel available. -/
theorem parseNum_succ_str (jl : String → Option PyVal) (fuel : Nat) (s0 : String) :
    parseNum jl (fuel + 1) (.vStr s0) =
      match (if looksJson (pyStrip s0) then (jl (pyStrip s0)).map (parseNum jl fuel) else none) with
      | some r => r
      | none =>
        match trailingNum (pyStrip s0) with
        | some n =>
            if 0 ≤ (n : Int) ∧ (n : Int) ≤ 99 then some ⟨none, (n : Int), .vStr s0⟩ else none
        | none => none := rfl

/-- Unfolding `parseNum` on a list with one unit of fuel available. -/
theorem parseNum_succ_list (jl : String → Option PyVal) (fuel : Nat) (l : List PyVal) :
    parseNum jl (fuel + 1) (.vList l) =
      match l.getLast? with
      | some x => parseNum jl fuel x
      | none => none := rfl

/-- Every value produced by one iteration of the candidate loop passed
its `[0,99]` bound check. -/
theorem tryCandidate_range (c : Option PyVal) (n : Int)
    (h : tryCandidate c = some n) : 0 ≤ n ∧ n ≤ 99 := by
  rcases c with _ | v
  · simp [tryCandidate] at h
  rcases v with m | s | l | f | _
  · simp only [tryCandidate] at h
    split at h
    next hcond => cases h; exact hcond
    next => cases h
  · simp only [tryCandidate] at h
    split at h
    next m heqt =>
      split at h
      next hcond => cases h; exact hcond
      next => cases h
    next => cases h
  · simp [tryCandidate] at h
  · simp [tryCandidate] at h
  · simp [tryCandidate] at h

/-- The `[0,99]` invariant, quantified form: whatever the shape of the
payload, the `json.loads` oracle, and the available fuel, a produced
event's number is in range. -/
theorem parseNum_range_aux (jl : String → Option PyVal) (fuel : Nat) :
    ∀ (d : PyVal) (e : Event), parseNum jl fuel d = some e →
      0 ≤ e.number ∧ e.number ≤ 99 := by
  induction fuel with
  | zero => intro d e h; simp [parseNum] at h
  | succ fuel ih =>
    intro d e h
    rcases d with m | s0 | l | fs | _
    · simp [parseNum] at h
    · rw [parseNum_succ_str] at h
      split at h
      next r heq =>
        by_cases hb : looksJson (pyStrip s0)
        · rw [if_pos hb] at heq
          rcases hjv : jl (pyStrip s0) with _ | v
          · rw [hjv] at heq; cases heq
          · rw [hjv] at heq
            simp only [Option.map_some'] at heq
            cases heq
            exact ih v e h
        · rw [if_neg hb] at heq; cases heq
      next heq =>
        split at h
        next m heqt =>
          split at h
          next hcond => cases h; exact hcond
          next => cases h
        next => cases h
    · rw [parseNum_succ_list] at h
      split at h
      next x heq => exact ih x e h
      next => cases h
    · rw [parseNum_succ_dict] at h
      split at h
      next n heq =>
        cases h
        obtain ⟨a, _, hta⟩ := List.exists_of_findSome?_eq_some heq
        exact tryCandidate_range a n hta
      next heq =>
        split at h
        next lastv heq2 => exact ih lastv e h
        next => cases h
    · simp [parseNum] at h

/-! ## Normalizer theorems -/

/-- C7: whenever the normalizer returns an event — for any payload,
any `json.loads` behavior and any fuel — the event's number lies in
`[0,99]`; and the concrete out-of-range payload `{"number": 150}`
yields no event. -/
theorem parseNum_range :
    (∀ (jl : String → Option PyVal) (fuel : Nat) (d : PyVal) (e : Event),
        parseNum jl fuel d = some e → 0 ≤ e.number ∧ e.number ≤ 99) ∧
    (∀ (jl : String → Option PyVal) (fuel : Nat),
        parseNum jl fuel (.vDict [("number", .vInt 150)]) = none) := by
  refine ⟨fun jl fuel => parseNum_range_aux jl fuel, fun jl fuel => ?_⟩
  rcases fuel with _ | fuel
  · rfl
  · rfl

/-- Witness for C7: the range conjunct applied to the concrete plain
payload `"round result: 42"`. -/
theorem parseNum_range_witness :
    0 ≤ (Event.mk none 42 (.vStr "round result: 42")).number ∧
      (Event.mk none 42 (.vStr "round result: 42")).number ≤ 99 :=
  parseNum_range.1 (fun _ => none) 1 (.vStr "round result: 42")
    (Event.mk none 42 (.vStr "round result: 42")) (by rfl)

/-- A number extracted from trailing digits has at most two digits and
therefore never exceeds 99. -/
theorem trailingNum_le (s : String) (n : Nat) (h : trailingNum s = some n) :
    n ≤ 99 := by
  unfold trailingNum at h
  split at h
  · cases h
  next hne =>
    cases h
    have hdig : ∀ c ∈ s.data.reverse.takeWhile isAsciiDigit,
        48 ≤ c.toNat ∧ c.toNat ≤ 57 := by
      intro c hc
      have := List.mem_takeWhile_imp hc
      simpa [isAsciiDigit] using this
    rcases hr : s.data.reverse.takeWhile isAsciiDigit with _ | ⟨a, _ | ⟨b, rest⟩⟩
    · simp [hr] at hne
    · have ha := hdig a (by rw [hr]; exact List.mem_singleton_self a)
      simp only [hr, List.take, List.reverse_singleton, List.foldl]
      omega
    · have ha := hdig a (by rw [hr]; exact List.mem_cons_self a _)
      have hb := hdig b (by rw [hr]; exact List.mem_cons_of_mem a (List.mem_cons_self b _))
      simp only [hr, List.take, List.reverse_cons, List.reverse_nil, List.nil_append,
        List.cons_append, List.foldl]
      omega

/-- C8: for a plain (non-JSON-looking) string, the normalizer result
is exactly the last run of at most two trailing digits with an absent
issue, and in particular `"round result: 42"` yields number 42 and
`"value: 123"` yields number 23. -/
theorem parseNum_trailing :
    (∀ (jl : String → Option PyVal) (fuel : Nat) (s0 : String),
        looksJson (pyStrip s0) = false →
        parseNum jl (fuel + 1) (.vStr s0) =
          match trailingNum (pyStrip s0) with
          | some n => some ⟨none, (n : Int), .vStr s0⟩
          | none => none) ∧
    (∀ (jl : String → Option PyVal) (fuel : Nat),
        parseNum jl (fuel + 1) (.vStr "round result: 42") =
          some ⟨none, 42, .vStr "round result: 42"⟩) ∧
    (∀ (jl : String → Option PyVal) (fuel : Nat),
        parseNum jl (fuel + 1) (.vStr "value: 123") =
          some ⟨none, 23, .vStr "value: 123"⟩) := by
  refine ⟨fun jl fuel s0 hb => ?_, fun jl fuel => rfl, fun jl fuel => rfl⟩
  rw [parseNum_succ_str, if_neg (by simp [hb])]
  rcases ht : trailingNum (pyStrip s0) with _ | n
  · rfl
  · have hle := trailingNum_le _ _ ht
    show (if 0 ≤ (n : Int) ∧ (n : Int) ≤ 99
          then some (Event.mk none (n : Int) (.vStr s0)) else none) =
      some (Event.mk none (n : Int) (.vStr s0))
    rw [if_pos ⟨Int.ofNat_nonneg n, by exact_mod_cast hle⟩]

/-- Witness for C8: the general conjunct applied to the plain string
`"game 7"`. -/
theorem parseNum_trailing_witness :
    parseNum (fun _ => none) 1 (.vStr "game 7") =
      match trailingNum (pyStrip "game 7") with
      | some n => some ⟨none, (n : Int), .vStr "game 7"⟩
      | none => none :=
  parseNum_trailing.1 (fun _ => none) 0 "game 7" (by rfl)

/-- A string built from a non-empty character list is not `""`. -/
theorem mk_ne_empty (l : List Char) (h : l ≠ []) : String.mk l ≠ "" :=
  fun he => h (congrArg String.data he)

/-- Python's decimal rendering of a `Nat` is never the empty string. -/
theorem natRepr_ne_empty (n : Nat) : natRepr n ≠ "" := by
  unfold natRepr
  split
  · decide
  next h =>
    apply mk_ne_empty
    unfold natReprAux
    rw [if_neg h]
    simp

/-- Python's decimal rendering of an `Int` is never the empty string. -/
theorem intRepr_ne_empty (n : Int) : intRepr n ≠ "" := by
  rcases n with m | m
  · exact natRepr_ne_empty m
  · intro he
    have hlen := congrArg String.length he
    simp only [intRepr, String.length_append] at hlen
    have h1 : ("-" : String).length = 1 := by decide
    have h2 : ("" : String).length = 0 := by decide
    omega

/-- Applying `str` to a truthy Python value never yields the empty string (this is
what lets `issue or None` distinguish "had an issue field" from
"empty"). -/
theorem pyStr_ne_empty (v : PyVal) (h : pyTruthy v = true) : pyStr v ≠ "" := by
  rcases v with m | s | l | f | _
  · show pyRepr (.vInt m) ≠ ""
    rw [show pyRepr (.vInt m) = intRepr m from by simp [pyRepr]]
    exact intRepr_ne_empty m
  · simp only [pyTruthy, decide_eq_true_eq] at h
    exact h
  · intro he
    rw [show pyStr (.vList l) = pyRepr (.vList l) from rfl] at he
    simp only [pyRepr] at he
    have hlen := congrArg String.length he
    simp only [String.length_append] at hlen
    have h1 : ("[" : String).length = 1 := by decide
    have h2 : ("]" : String).length = 1 := by decide
    have h3 : ("" : String).length = 0 := by decide
    omega
  · intro he
    rw [show pyStr (.vDict f) = pyRepr (.vDict f) from rfl] at he
    simp only [pyRepr] at he
    have hlen := congrArg String.length he
    simp only [String.length_append] at hlen
    have h1 : ("\x7b" : String).length = 1 := by decide
    have h2 : ("\x7d" : String).length = 1 := by decide
    have h3 : ("" : String).length = 0 := by decide
    omega
  · simp [pyTruthy] at h

/-- A falsy link of the `or`-chain is skipped. -/
theorem orChain_falsy (x : Option PyVal) (rest : List (Option PyVal))
    (h : isFalsy x = true) : orChain (x :: rest) = orChain rest := by
  rcases x with _ | v
  · rfl
  · simp only [isFalsy, Bool.not_eq_true'] at h
    simp [orChain, h]

/-- A truthy link of the `or`-chain is the chain's value. -/
theorem orChain_truthy (v : PyVal) (rest : List (Option PyVal))
    (h : pyTruthy v = true) : orChain (some v :: rest) = some v := by
  simp [orChain, h]

/-- When the `or`-chain of the three issue fields produces a truthy
value, the resolved issue is its `str`. -/
theorem resolveIssue_of_chain (d : PyVal) (v : PyVal)
    (hc : orChain [safeGet1 d "issue", safeGet1 d "expect", safeGet1 d "period"] = some v)
    (ht : pyTruthy v = true) : resolveIssue d = some (pyStr v) := by
  unfold resolveIssue
  rw [hc]
  show (if pyStr v = "" then none else some (pyStr v)) = some (pyStr v)
  rw [if_neg (pyStr_ne_empty v ht)]

/-- The resolved issue is never `some ""`: a missing or falsy chain
collapses to `none`. -/
theorem resolveIssue_ne_emptyStr (d : PyVal) : resolveIssue d ≠ some "" := by
  simp only [resolveIssue]
  split
  · exact fun hcontr => Option.noConfusion hcontr
  next hne => exact fun hcontr => hne (Option.some.inj hcontr)

/-- With all three issue fields missing or falsy, the resolved issue
is absent. -/
theorem resolveIssue_none (d : PyVal)
    (h1 : isFalsy (safeGet1 d "issue") = true)
    (h2 : isFalsy (safeGet1 d "expect") = true)
    (h3 : isFalsy (safeGet1 d "period") = true) : resolveIssue d = none := by
  have hc : orChain [safeGet1 d "issue", safeGet1 d "expect", safeGet1 d "period"] = none := by
    rw [orChain_falsy _ _ h1, orChain_falsy _ _ h2, orChain_falsy _ _ h3]
    rfl
  unfold resolveIssue
  rw [hc]
  rfl

/-- Every event the normalizer can produce has issue ≠ `some ""`,
whatever the payload, oracle and fuel. -/
theorem parseNum_issue_aux (jl : String → Option PyVal) (fuel : Nat) :
    ∀ (d : PyVal) (e : Event), parseNum jl fuel d = some e → e.issue ≠ some "" := by
  induction fuel with
  | zero => intro d e h; simp [parseNum] at h
  | succ fuel ih =>
    intro d e h
    rcases d with m | s0 | l | fs | _
    · simp [parseNum] at h
    · rw [parseNum_succ_str] at h
      split at h
      next r heq =>
        by_cases hb : looksJson (pyStrip s0)
        · rw [if_pos hb] at heq
          rcases hjv : jl (pyStrip s0) with _ | v
          · rw [hjv] at heq; cases heq
          · rw [hjv] at heq
            simp only [Option.map_some'] at heq
            cases heq
            exact ih v e h
        · rw [if_neg hb] at heq; cases heq
      next heq =>
        split at h
        next m heqt =>
          split at h
          next hcond => cases h; exact fun hcontr => Option.noConfusion hcontr
          next => cases h
        next => cases h
    · rw [parseNum_succ_list] at h
      split at h
      next x heq => exact ih x e h
      next => cases h
    · rw [parseNum_succ_dict] at h
      split at h
      next n heq =>
        cases h
        exact resolveIssue_ne_emptyStr _
      next heq =>
        split at h
        next lastv heq2 => exact ih lastv e h
        next => cases h
    · simp [parseNum] at h

/-- C9: when a dict payload yields a valid direct candidate, the
event's issue is resolved by probing `issue`, `expect`, `period` in
that priority order (a truthy field wins over the later ones, falsy or
missing fields are skipped); an all-missing-or-falsy chain resolves to
absent, and the issue is never the empty string. -/
theorem parseNum_issue :
    (∀ (jl : String → Option PyVal) (fuel : Nat) (d : PyVal) (e : Event),
        parseNum jl fuel d = some e → e.issue ≠ some "") ∧
    (∀ (jl : String → Option PyVal) (fuel : Nat) (fs : List (String × PyVal)) (n : Int),
        (candidates (.vDict fs)).findSome? tryCandidate = some n →
        parseNum jl (fuel + 1) (.vDict fs) =
          some ⟨resolveIssue (.vDict fs), n, .vDict fs⟩) ∧
    (∀ (d v : PyVal), safeGet1 d "issue" = some v → pyTruthy v = true →
        resolveIssue d = some (pyStr v)) ∧
    (∀ (d v : PyVal), isFalsy (safeGet1 d "issue") = true →
        safeGet1 d "expect" = some v → pyTruthy v = true →
        resolveIssue d = some (pyStr v)) ∧
    (∀ (d v : PyVal), isFalsy (safeGet1 d "issue") = true →
        isFalsy (safeGet1 d "expect") = true →
        safeGet1 d "period" = some v → pyTruthy v = true →
        resolveIssue d = some (pyStr v)) ∧
    (∀ (d : PyVal), isFalsy (safeGet1 d "issue") = true →
        isFalsy (safeGet1 d "expect") = true →
        isFalsy (safeGet1 d "period") = true → resolveIssue d = none) := by
  refine ⟨parseNum_issue_aux, ?_, ?_, ?_, ?_, resolveIssue_none⟩
  · intro jl fuel fs n h
    rw [parseNum_succ_dict, h]
  · intro d v h1 ht
    exact resolveIssue_of_chain d v (by rw [h1]; exact orChain_truthy v _ ht) ht
  · intro d v h1 h2 ht
    refine resolveIssue_of_chain d v ?_ ht
    rw [orChain_falsy _ _ h1, h2]
    exact orChain_truthy v _ ht
  · intro d v h1 h2 h3 ht
    refine resolveIssue_of_chain d v ?_ ht
    rw [orChain_falsy _ _ h1, orChain_falsy _ _ h2, h3]
    exact orChain_truthy v _ ht

/-- Witness for C9: priority of `issue` over `expect` on a concrete
payload, and the all-missing case on a payload without issue fields. -/
theorem parseNum_issue_witness :
    resolveIssue (.vDict [("issue", .vStr "X1"), ("expect", .vStr "B")]) =
      some (pyStr (.vStr "X1")) ∧
    resolveIssue (.vDict [("number", .vInt 7)]) = none :=
  ⟨parseNum_issue.2.2.1 (.vDict [("issue", .vStr "X1"), ("expect", .vStr "B")])
      (.vStr "X1") (by rfl) (by decide),
   parseNum_issue.2.2.2.2.2 (.vDict [("number", .vInt 7)]) (by rfl) (by rfl) (by rfl)⟩

/-- C10: when a dict yields no valid direct candidate, the result is
exactly one recursion on the last element of the first non-empty array
among the keys `list`, `rows`, `data`, `resultList` probed in that
order (`none` when no key qualifies) — so a failing recursion is final
and later keys are never consulted, as the concrete `rows`/`resultList`
payload demonstrates; keys bound to empty arrays or non-arrays are
skipped, as the `list`/`rows`/`data` payload demonstrates. -/
theorem parseNum_collections :
    (∀ (jl : String → Option PyVal) (fuel : Nat) (fs : List (String × PyVal)),
        (candidates (.vDict fs)).findSome? tryCandidate = none →
        parseNum jl (fuel + 1) (.vDict fs) =
          match firstArrayLast (.vDict fs) with
          | some v => parseNum jl fuel v
          | none => none) ∧
    (∀ (d : PyVal) (l : List PyVal), safeGet1 d "list" = some (.vList l) → l ≠ [] →
        firstArrayLast d = l.getLast?) ∧
    (∀ (d v : PyVal), asLastOfArray (safeGet1 d "list") = none →
        asLastOfArray (safeGet1 d "rows") = some v → firstArrayLast d = some v) ∧
    (∀ (jl : String → Option PyVal) (fuel : Nat),
        parseNum jl fuel
          (.vDict [("rows", .vList [.vNone]),
                   ("resultList", .vList [.vDict [("number", .vInt 7)]])]) = none) ∧
    (∀ (jl : String → Option PyVal) (fuel : Nat),
        parseNum jl (fuel + 2)
          (.vDict [("list", .vList []), ("rows", .vStr "x"),
                   ("data", .vList [.vDict [("number", .vInt 3)]])]) =
          some ⟨none, 3, .vDict [("number", .vInt 3)]⟩) := by
  refine ⟨?_, ?_, ?_, ?_, fun jl fuel => rfl⟩
  · intro jl fuel fs h
    rw [parseNum_succ_dict, h]
  · intro d l h1 hne
    have ha : asLastOfArray (safeGet1 d "list") = l.getLast? := by rw [h1]; rfl
    obtain ⟨x, hx⟩ := Option.isSome_iff_exists.mp
      (by simp [List.getLast?_isSome, hne] : l.getLast?.isSome = true)
    simp only [firstArrayLast, List.findSome?_cons, ha, hx]
  · intro d v h1 h2
    simp only [firstArrayLast, List.findSome?_cons, h1, h2]
  · intro jl fuel
    rcases fuel with _ | _ | fuel <;> rfl

/-- Witness for C10: the general conjunct applied to the
`rows`-holding payload whose recursion fails. -/
theorem parseNum_collections_witness :
    parseNum (fun _ => none) 1 (.vDict [("rows", .vList [.vNone])]) =
      match firstArrayLast (.vDict [("rows", .vList [.vNone])]) with
      | some v => parseNum (fun _ => none) 0 v
      | none => none :=
  parseNum_collections.1 (fun _ => none) 0 [("rows", .vList [.vNone])] (by rfl)

end SignalX
